import Mathlib

/-!
Shallow embedding of the stocksScraper repository: the record normalizer
(`cleanSymbol`, `cleanText`, `parseNumber`), the table-row extractor of
`StockScraper.scrapeStockData`, the upsert store of
`StockScraper.saveToMongoDB` (Mongoose `findOneAndUpdate` with
`upsert: true`), the aggregation statics `findLatest` and
`getMarketSummary` of `models/data_model.js`, and the filtered listing,
summary and by-symbol route handlers of the stock routes.

JS numbers are modelled as `Rat` (every value handled by the program is a
finite decimal, exactly representable), dates (`scrapedAt`) as `Nat`
timestamps, DOM rows as `List (List String)` (one inner list of cell
`innerText`s per `<tr>`), and the MongoDB collection as a `List` of
records in insertion order.
-/

namespace StocksScraper

/-- ASCII test used by the JS regex `[^A-Z0-9]/gi` in `cleanSymbol`:
a character survives the strip exactly when it is an ASCII letter
(either case) or digit. -/
def isStockAlnum (c : Char) : Bool :=
  (65 ≤ c.toNat && c.toNat ≤ 90) ||
  (97 ≤ c.toNat && c.toNat ≤ 122) ||
  (48 ≤ c.toNat && c.toNat ≤ 57)

/-- JS `String.prototype.toUpperCase` restricted to the ASCII range that
the scraper feeds it: lowercase letters map to uppercase, every other
character is unchanged. -/
def jsUpperChar (c : Char) : Char :=
  if 97 ≤ c.toNat ∧ c.toNat ≤ 122 then Char.ofNat (c.toNat - 32) else c

/-- JS `toUpperCase` lifted to strings. -/
def jsUpperString (s : String) : String :=
  String.mk (s.data.map jsUpperChar)

/-- `cleanSymbol` of `scraper.js`:
`(str || '').replace(/[^A-Z0-9]/gi, '').toUpperCase()`.
`none` models a JS `undefined`/`null` argument. -/
def cleanSymbol (s : Option String) : String :=
  jsUpperString (String.mk ((s.getD "").data.filter isStockAlnum))

/-- `cleanText` of `scraper.js`: `(str || '').trim()` — surrounding
whitespace stripped from both ends. -/
def cleanText (s : Option String) : String :=
  String.mk ((((s.getD "").data.dropWhile Char.isWhitespace).reverse.dropWhile
    Char.isWhitespace).reverse)

/-- Longest prefix of digits of a character list, with the rest. -/
def takeDigits : List Char → List Char × List Char
  | [] => ([], [])
  | c :: cs =>
    if c.isDigit then
      let p := takeDigits cs
      (c :: p.1, p.2)
    else ([], c :: cs)

/-- Digit list to the natural number it denotes (most significant first). -/
def digitsToNat (ds : List Char) : Nat :=
  ds.foldl (fun a c => a * 10 + (c.toNat - 48)) 0

/-- JS `parseFloat` restricted to the alphabet `{0-9, '.', '-'}` that
survives `replace(/[^\d.-]/g, '')`: an optional leading minus sign, then
the longest prefix `digits [ '.' digits ]`; `none` (JS `NaN`) when no
digit is consumed. No exponent or `Infinity` form is reachable because
letters were stripped. -/
def parseFloatStripped (s : String) : Option Rat :=
  let p0 : Bool × List Char :=
    match s.data with
    | '-' :: rest => (true, rest)
    | cs => (false, cs)
  let intP := takeDigits p0.2
  let fracP : List Char :=
    match intP.2 with
    | '.' :: r2 => (takeDigits r2).1
    | _ => []
  if intP.1.isEmpty && fracP.isEmpty then none
  else
    let mag : Rat :=
      mkRat (digitsToNat intP.1 * 10 ^ fracP.length + digitsToNat fracP) (10 ^ fracP.length)
    some (if p0.1 then -mag else mag)

/-- The character strip `str.replace(/[^\d.-]/g, '')` of `parseNumber`. -/
def stripNonNumeric (s : String) : String :=
  String.mk (s.data.filter (fun c => c.isDigit || c = '.' || c = '-'))

/-- `parseNumber` of `scraper.js`:
`if (!str || str === '-' || str === 'N/A') return 0;
 const cleaned = str.replace(/[^\d.-]/g, ''); return parseFloat(cleaned) || 0;`.
`none` models `undefined`; `parseFloat` yielding `NaN` (here `none`) or
`0`/`-0` collapses to `0` through `|| 0`, which over `Rat` is `Option.getD`. -/
def parseNumber (s : Option String) : Rat :=
  match s with
  | none => 0
  | some str =>
    if str = "" || str = "-" || str = "N/A" then 0
    else (parseFloatStripped (stripNonNumeric str)).getD 0

/-- One stock record, mirroring the fields built by `scrapeStockData` and
declared in `stockSchema` (`models/data_model.js`). The schema field
`open` is a Lean keyword, hence the quoted name. -/
structure Stock where
  symbol : String
  securityName : String
  «open» : Rat
  high : Rat
  low : Rat
  close : Rat
  change : Rat
  dailyVolume : Rat
  dailyValue : Rat
  scrapedAt : Nat
deriving Repr, DecidableEq

/-- The body of `rows.forEach` in `scrapeStockData`: a row is mapped to a
record exactly when it has at least 8 cells, cells 0–8 feeding the fields
positionally; `cells[8]?.innerText || '0'` defaults the ninth cell to the
string `"0"` when absent or empty. `scrapedAt` is attached later by the
caller, modelled here as 0. -/
def extractRow (cells : List String) : Option Stock :=
  if 8 ≤ cells.length then
    some {
      symbol := cleanSymbol (cells.get? 0),
      securityName := cleanText (cells.get? 1),
      «open» := parseNumber (cells.get? 2),
      high := parseNumber (cells.get? 3),
      low := parseNumber (cells.get? 4),
      close := parseNumber (cells.get? 5),
      change := parseNumber (cells.get? 6),
      dailyVolume := parseNumber (cells.get? 7),
      dailyValue :=
        parseNumber (some (if (cells.get? 8).getD "" = "" then "0"
                           else (cells.get? 8).getD "")),
      scrapedAt := 0 }
  else none

/-- The `rows.forEach` accumulation: rows with at least 8 cells, in row
order. -/
def extractRows (rows : List (List String)) : List Stock :=
  rows.filterMap extractRow

/-- The full extraction result of `scrapeStockData`'s `evaluate` callback:
`stocks.filter((s) => s.symbol && s.close > 0)` — a truthy (non-empty)
symbol and a strictly positive close. -/
def scrapeExtract (rows : List (List String)) : List Stock :=
  (extractRows rows).filter (fun s => s.symbol != "" && decide (0 < s.close))

/-- `scrapeStockData`'s post-processing `map` attaching the scrape
timestamp: `{ ...stock, scrapedAt: new Date() }`. -/
def attachScrapedAt (t : Nat) (stocks : List Stock) : List Stock :=
  stocks.map (fun s => { s with scrapedAt := t })

/-- One `Stock.findOneAndUpdate({ symbol: info.symbol }, info, { upsert:
true, new: true, setDefaultsOnInsert: true })` against the collection:
the first document whose `symbol` equals the record's is replaced by the
new record (every schema field is in the update document, so all mutable
fields including `scrapedAt` are overwritten); when none matches, the
record is inserted (all defaulted fields are supplied by the record, so
the insert is the record itself). -/
def upsertOne : List Stock → Stock → List Stock
  | [], info => [info]
  | r :: rs, info =>
    if r.symbol = info.symbol then info :: rs else r :: upsertOne rs info

/-- The loop of `saveToMongoDB` on the failure-free path: each record is
upserted in order. -/
def upsertAll (store : List Stock) (data : List Stock) : List Stock :=
  data.foldl upsertOne store

/-- `StockScraper.saveToMongoDB` with the possibility that a single
`findOneAndUpdate` rejects, modelled by `fail`. The loop body has no
`try`/`catch`: a rejection propagates out of the whole `for … of` loop,
so the function returns the collection as mutated so far together with
either the saved list (`Except.ok`, in input order thanks to
`savedStocks.push`) or the first error (`Except.error`). The
`if (!stockData.length) return []` guard coincides with the base case. -/
def saveToMongoDB (fail : Stock → Option String) :
    List Stock → List Stock → List Stock × Except String (List Stock)
  | store, [] => (store, Except.ok [])
  | store, info :: rest =>
    match fail info with
    | some e => (store, Except.error e)
    | none =>
      match saveToMongoDB fail (upsertOne store info) rest with
      | (s, Except.error e) => (s, Except.error e)
      | (s, Except.ok saved) => (s, Except.ok (info :: saved))

/-- The virtual `changePercent` of `stockSchema`:
`if (change === 0 || close === 0) return 0; const previousClose = close -
change; if (previousClose === 0) return 0; return (change /
previousClose) * 100`. It is a Mongoose virtual: a function of the
stored fields, itself never persisted (accordingly `Stock` has no such
field). -/
def changePercent (r : Stock) : Rat :=
  if r.change = 0 ∨ r.close = 0 then 0
  else if r.close - r.change = 0 then 0
  else r.change / (r.close - r.change) * 100

/-- The `$sort: { symbol: 1, scrapedAt: -1 }` stage of `findLatest`:
symbol ascending, scrape time descending within a symbol. -/
def latestRel (a b : Stock) : Prop :=
  a.symbol.data < b.symbol.data ∨ (a.symbol = b.symbol ∧ b.scrapedAt ≤ a.scrapedAt)

instance : DecidableRel latestRel := fun a b => by
  unfold latestRel; infer_instance

/-- The final `$sort: { symbol: 1 }` stage of `findLatest`. -/
def symbolAsc (a b : Stock) : Prop :=
  a.symbol.data ≤ b.symbol.data

instance : DecidableRel symbolAsc := fun a b => by
  unfold symbolAsc; infer_instance

/-- The `$sort: { scrapedAt: -1 }` stage of `getMarketSummary`. -/
def recentRel (a b : Stock) : Prop :=
  b.scrapedAt ≤ a.scrapedAt

instance : DecidableRel recentRel := fun a b => by
  unfold recentRel; infer_instance

/-- The `$group: { _id: '$symbol', latestStock: { $first: '$$ROOT' } }`
stage applied after a sort, followed by `$replaceRoot`: one document per
distinct symbol, namely the first document of the group in the incoming
order; groups are emitted in order of first appearance. -/
def dedupBySymbol : List Stock → List Stock
  | [] => []
  | r :: rs => r :: (dedupBySymbol rs).filter (fun x => x.symbol != r.symbol)

/-- `stockSchema.statics.findLatest`: sort by `(symbol asc, scrapedAt
desc)`, group per symbol keeping the first document, `$limit`, then sort
the survivors by symbol ascending. -/
def findLatest (limit : Nat) (store : List Stock) : List Stock :=
  ((dedupBySymbol (store.insertionSort latestRel)).take limit).insertionSort symbolAsc

/-- Result document of the `$group: { _id: null, … }` stage of
`getMarketSummary` (the `_id` is dropped). -/
structure MarketSummary where
  totalStocks : Nat
  totalVolume : Rat
  totalValue : Rat
  avgPrice : Rat
  gainers : Nat
  losers : Nat
  unchanged : Nat
deriving Repr, DecidableEq

/-- The `$sort: { scrapedAt: -1 }` + `$limit: 200` window of
`getMarketSummary`. -/
def recentWindow (store : List Stock) : List Stock :=
  (store.insertionSort recentRel).take 200

/-- `stockSchema.statics.getMarketSummary`: aggregate over the 200 most
recent records. `$group` with `_id: null` emits no document at all on an
empty input, hence the empty list; `$sum` of a `$cond`-indicator is a
count (`countP`), `$avg` the sum divided by the count. -/
def getMarketSummary (store : List Stock) : List MarketSummary :=
  let recent := recentWindow store
  if recent.isEmpty then []
  else
    [{ totalStocks := recent.length,
       totalVolume := (recent.map Stock.dailyVolume).sum,
       totalValue := (recent.map Stock.dailyValue).sum,
       avgPrice := (recent.map Stock.close).sum / (recent.length : Rat),
       gainers := recent.countP (fun r => decide (0 < r.change)),
       losers := recent.countP (fun r => decide (r.change < 0)),
       unchanged := recent.countP (fun r => decide (r.change = 0)) }]

/-- The all-zero default object of the `GET /summary` handler. -/
def zeroSummary : MarketSummary :=
  { totalStocks := 0, totalVolume := 0, totalValue := 0, avgPrice := 0,
    gainers := 0, losers := 0, unchanged := 0 }

/-- The `GET /summary` route handler body: `summary[0] || { …zeros }`. -/
def summaryRoute (store : List Stock) : MarketSummary :=
  match getMarketSummary store with
  | [] => zeroSummary
  | s :: _ => s

/-- Query-string parameters of the `GET /` listing route, after the JS
destructuring defaults (`page = 1, limit = 50, sortBy = 'symbol',
sortOrder = 'asc'`); absent optional filters are `none`. -/
structure ListQuery where
  page : Nat := 1
  limit : Nat := 50
  symbol : Option String := none
  securityName : Option String := none
  sortBy : String := "symbol"
  sortOrder : String := "asc"
  minClose : Option Rat := none
  maxClose : Option Rat := none
  startDate : Option Nat := none
  endDate : Option Nat := none

/-- The case-insensitive substring match of `new RegExp(pattern, 'i')`
as used by the listing filters (the scraper's patterns carry no regex
metacharacters, so the regex is a plain substring test). -/
def containsCI (hay pat : String) : Bool :=
  decide ((jsUpperString pat).data <:+: (jsUpperString hay).data)

/-- The Mongo `query` object built by the `GET /` handler, as a
predicate: symbol and name case-insensitive substring, `close` within
`[$gte, $lte]`, `scrapedAt` within the date range. -/
def matchesQuery (q : ListQuery) (r : Stock) : Bool :=
  (match q.symbol with | none => true | some p => containsCI r.symbol p) &&
  (match q.securityName with | none => true | some p => containsCI r.securityName p) &&
  (match q.minClose with | none => true | some m => decide (m ≤ r.close)) &&
  (match q.maxClose with | none => true | some m => decide (r.close ≤ m)) &&
  (match q.startDate with | none => true | some d => decide (d ≤ r.scrapedAt)) &&
  (match q.endDate with | none => true | some d => decide (r.scrapedAt ≤ d))

/-- The `validSortFields` array of the `GET /` handler. -/
def validSortFields : List String :=
  ["symbol", "securityName", "open", "high", "low", "close", "change",
   "dailyVolume", "dailyValue", "scrapedAt"]

/-- `const sortField = validSortFields.includes(sortBy) ? sortBy :
'symbol'`. -/
def sortField (q : ListQuery) : String :=
  if validSortFields.contains q.sortBy then q.sortBy else "symbol"

/-- Ascending comparison on one named schema field; any unrecognized
name compares on `symbol` (only reached with `"symbol"` itself here). -/
def fieldLE (f : String) (a b : Stock) : Prop :=
  if f = "securityName" then a.securityName ≤ b.securityName
  else if f = "open" then a.«open» ≤ b.«open»
  else if f = "high" then a.high ≤ b.high
  else if f = "low" then a.low ≤ b.low
  else if f = "close" then a.close ≤ b.close
  else if f = "change" then a.change ≤ b.change
  else if f = "dailyVolume" then a.dailyVolume ≤ b.dailyVolume
  else if f = "dailyValue" then a.dailyValue ≤ b.dailyValue
  else if f = "scrapedAt" then a.scrapedAt ≤ b.scrapedAt
  else a.symbol.data ≤ b.symbol.data

instance fieldLE.instDecidable : ∀ f, DecidableRel (fieldLE f) := fun f a b => by
  unfold fieldLE; infer_instance

/-- `const sortOptions = { [sortField]: sortOrder === 'desc' ? -1 : 1 }`:
the sort relation actually handed to Mongo — the chosen field, reversed
exactly when `sortOrder` is the string `'desc'`. -/
def sortRel (q : ListQuery) (a b : Stock) : Prop :=
  if q.sortOrder = "desc" then fieldLE (sortField q) b a
  else fieldLE (sortField q) a b

instance : ∀ q, DecidableRel (sortRel q) := fun q a b => by
  unfold sortRel; split <;> infer_instance

/-- The `GET /` listing handler: filter, sort, `skip((page-1)*limit)`,
`limit(limit)`, with `total = countDocuments(query)` computed on the
same filter and no pagination. Returns `(data, total)`. -/
def listFiltered (q : ListQuery) (store : List Stock) : List Stock × Nat :=
  let matched := store.filter (matchesQuery q)
  let sorted := matched.insertionSort (sortRel q)
  (((sorted.drop ((q.page - 1) * q.limit)).take q.limit), matched.length)

/-- Mongo `findOne({ symbol: sym })`: the first document in collection
order whose symbol equals `sym`. -/
def findOneBySymbol (store : List Stock) (sym : String) : Option Stock :=
  store.find? (fun r => r.symbol == sym)

/-- The `GET /:symbol` handler:
`findOne({ symbol: req.params.symbol.toUpperCase() })`, answering 404
when nothing matches and the document otherwise. -/
def getStockBySymbol (store : List Stock) (param : String) : Except Nat Stock :=
  match findOneBySymbol store (jsUpperString param) with
  | none => Except.error 404
  | some r => Except.ok r

/-- Spec-side vocabulary: a character of a stored symbol, i.e. an
uppercase ASCII letter or a digit. -/
def isUpperAlnum (c : Char) : Bool :=
  (65 ≤ c.toNat && c.toNat ≤ 90) || (48 ≤ c.toNat && c.toNat ≤ 57)

/-- Test vector: a well-formed scraped row with all 9 cells. -/
def rowZen : List String :=
  ["ZEN", "Zenith Bank", "10", "12", "9", "11", "1", "1000", "11000"]

/-- Test vector: a malformed scraped row with only 6 cells. -/
def rowBad : List String :=
  ["BAD", "Bad Co", "1", "2", "3", "4"]

/-- Test vector: a second well-formed row, with a negative change. -/
def rowGtb : List String :=
  ["GTB", "GT Bank", "20", "22", "19", "21", "-1", "2000", "42000"]

/-- Test vector: the three-row synthetic table whose middle row is
malformed. -/
def threeRowTable : List (List String) :=
  [rowZen, rowBad, rowGtb]

/-- Test vector: the record the extractor builds from `rowZen`. -/
def zenExtracted : Stock :=
  { symbol := "ZEN", securityName := "Zenith Bank", «open» := 10, high := 12, low := 9,
    close := 11, change := 1, dailyVolume := 1000, dailyValue := 11000, scrapedAt := 0 }

/-- Test vector: the record the extractor builds from `rowGtb`. -/
def gtbExtracted : Stock :=
  { symbol := "GTB", securityName := "GT Bank", «open» := 20, high := 22, low := 19,
    close := 21, change := -1, dailyVolume := 2000, dailyValue := 42000, scrapedAt := 0 }

/-- Test vector: a record as stored for symbol `ZEN`. -/
def zen : Stock :=
  { symbol := "ZEN", securityName := "Zenith", «open» := 1, high := 3, low := 1,
    close := 2, change := 1, dailyVolume := 100, dailyValue := 200, scrapedAt := 5 }

/-- Test vector: the same `ZEN` record observed at a later scrape. -/
def zenLater : Stock :=
  { zen with scrapedAt := 9 }

/-- Test vector: a record for symbol `GTB` with a negative change. -/
def gtb : Stock :=
  { zen with symbol := "GTB", change := -1, scrapedAt := 3 }

/-- Test vector: a record for symbol `UBA` with zero change. -/
def uba : Stock :=
  { zen with symbol := "UBA", change := 0, scrapedAt := 4 }

/-- Test vector: a persistence failure mode in which exactly the
`findOneAndUpdate` for symbol `ZEN` rejects. -/
def failZen (r : Stock) : Option String :=
  if r.symbol = "ZEN" then some "db down" else none

/-- Test vector: a listing request with an unknown sort field and
descending order. -/
def qBogusDesc : ListQuery :=
  { sortBy := "bogus", sortOrder := "desc" }

/-! ### Helper lemmas -/

/-- `Char.ofNat` on a value below the surrogate range reads back as the
same code point. -/
theorem toNat_ofNat_of_lt {n : Nat} (h : n < 55296) : (Char.ofNat n).toNat = n := by
  unfold Char.ofNat
  rw [dif_pos (Or.inl h)]
  rfl

/-- Uppercasing a character that survived the `[^A-Z0-9]/gi` strip lands
in `A–Z`/`0–9`. -/
theorem isUpperAlnum_jsUpperChar {c : Char} (h : isStockAlnum c = true) :
    isUpperAlnum (jsUpperChar c) = true := by
  unfold isStockAlnum at h
  unfold jsUpperChar isUpperAlnum
  simp only [Bool.or_eq_true, Bool.and_eq_true, decide_eq_true_eq] at h ⊢
  by_cases hl : 97 ≤ c.toNat ∧ c.toNat ≤ 122
  · rw [if_pos hl, toNat_ofNat_of_lt (by omega)]
    omega
  · rw [if_neg hl]
    omega

/-- Every character of a cleaned symbol is an uppercase letter or a
digit. -/
theorem cleanSymbol_chars {o : Option String} {c : Char}
    (hc : c ∈ (cleanSymbol o).data) : isUpperAlnum c = true := by
  unfold cleanSymbol jsUpperString at hc
  simp only [List.mem_map, List.mem_filter] at hc
  obtain ⟨c', ⟨_, hc'⟩, rfl⟩ := hc
  exact isUpperAlnum_jsUpperChar hc'

/-- C7: `parseNumber` is total by type (`String`-or-absent to `Rat`, no
exception path exists); the dash, `N/A`, empty and absent placeholders
parse to `0`, `'1,234.50'` parses to `1234.5`, and any input whose
stripped form `parseFloat` cannot parse collapses to `0`. -/
theorem parseNumber_total_spec :
    parseNumber none = 0 ∧
    parseNumber (some "") = 0 ∧
    parseNumber (some "-") = 0 ∧
    parseNumber (some "N/A") = 0 ∧
    parseNumber (some "1,234.50") = 1234.5 ∧
    ∀ s : String, parseFloatStripped (stripNonNumeric s) = none →
      parseNumber (some s) = 0 := by
  refine ⟨by decide, by decide, by decide, by decide, ?_, ?_⟩
  · have h : parseNumber (some "1,234.50") = mkRat 123450 100 := by decide
    rw [h, Rat.mkRat_eq_div]
    norm_num
  · intro s h
    show (if (s = "" || s = "-" || s = "N/A" : Bool) then (0 : Rat)
          else (parseFloatStripped (stripNonNumeric s)).getD 0) = 0
    split
    · rfl
    · rw [h]
      rfl

/-- C7 witness: the theorem applied to the unparseable input `"--"`. -/
theorem parseNumber_total_spec_witness : parseNumber (some "--") = 0 :=
  parseNumber_total_spec.2.2.2.2.2 "--" (by decide)

/-- A row mapped by the extractor carries the cleaned first cell as its
symbol. -/
theorem extractRow_symbol {cells : List String} {s : Stock}
    (h : extractRow cells = some s) : s.symbol = cleanSymbol (cells.get? 0) := by
  unfold extractRow at h
  split at h
  · obtain rfl := Option.some.inj h
    rfl
  · simp at h

/-- Membership in the extractor's output yields the filter guarantees and
an originating row. -/
theorem mem_scrapeExtract {rows : List (List String)} {s : Stock}
    (hs : s ∈ scrapeExtract rows) :
    s.symbol ≠ "" ∧ 0 < s.close ∧ ∃ cells ∈ rows, extractRow cells = some s := by
  unfold scrapeExtract at hs
  rw [List.mem_filter] at hs
  obtain ⟨hmem, hcond⟩ := hs
  simp only [Bool.and_eq_true, bne_iff_ne, decide_eq_true_eq] at hcond
  unfold extractRows at hmem
  rw [List.mem_filterMap] at hmem
  exact ⟨hcond.1, hcond.2, hmem⟩

/-- C8: a row with fewer than 8 cells is silently dropped; a row with at
least 8 cells is mapped positionally through the normalizer, the ninth
cell defaulting to parsing `'0'` when the row has exactly 8 cells; the
synthetic three-row table whose middle row has only 6 cells yields
exactly the 2 records of its well-formed rows. -/
theorem extractRow_positional_spec :
    (∀ cells : List String, cells.length < 8 → extractRow cells = none) ∧
    (∀ cells : List String, 8 ≤ cells.length → ∃ r : Stock,
      extractRow cells = some r ∧
      r.symbol = cleanSymbol (cells.get? 0) ∧
      r.securityName = cleanText (cells.get? 1) ∧
      r.«open» = parseNumber (cells.get? 2) ∧
      r.high = parseNumber (cells.get? 3) ∧
      r.low = parseNumber (cells.get? 4) ∧
      r.close = parseNumber (cells.get? 5) ∧
      r.change = parseNumber (cells.get? 6) ∧
      r.dailyVolume = parseNumber (cells.get? 7) ∧
      (cells.length = 8 → r.dailyValue = parseNumber (some "0")) ∧
      (∀ c9, cells.get? 8 = some c9 → c9 ≠ "" →
        r.dailyValue = parseNumber (some c9))) ∧
    scrapeExtract threeRowTable = [zenExtracted, gtbExtracted] := by
  refine ⟨?_, ?_, by decide⟩
  · intro cells h
    unfold extractRow
    rw [if_neg (by omega)]
  · intro cells h
    unfold extractRow
    rw [if_pos h]
    refine ⟨_, rfl, rfl, rfl, rfl, rfl, rfl, rfl, rfl, rfl, ?_, ?_⟩
    · intro h8
      have h9 : cells.get? 8 = none := List.get?_eq_none.mpr (by omega)
      rw [List.get?_eq_getElem?] at h9
      simp [h9]
    · intro c9 h9 hne
      rw [List.get?_eq_getElem?] at h9
      simp [h9, hne]

/-- C8 witness: the theorem applied to the malformed 6-cell row. -/
theorem extractRow_positional_spec_witness : extractRow rowBad = none :=
  extractRow_positional_spec.1 rowBad (by decide)

/-- A record present after one upsert was already stored or is the
upserted record itself. -/
theorem mem_upsertOne {store : List Stock} {info x : Stock}
    (h : x ∈ upsertOne store info) : x ∈ store ∨ x = info := by
  induction store with
  | nil => simpa [upsertOne] using (List.mem_singleton.mp h)
  | cons r rs ih =>
    unfold upsertOne at h
    by_cases hs : r.symbol = info.symbol
    · rw [if_pos hs] at h
      rcases List.mem_cons.mp h with h1 | h1
      · exact Or.inr h1
      · exact Or.inl (List.mem_cons_of_mem _ h1)
    · rw [if_neg hs] at h
      rcases List.mem_cons.mp h with h1 | h1
      · exact Or.inl (h1 ▸ List.mem_cons_self _ _)
      · rcases ih h1 with h2 | h2
        · exact Or.inl (List.mem_cons_of_mem _ h2)
        · exact Or.inr h2

/-- A record present after a batch of upserts was already stored or
belongs to the batch. -/
theorem mem_upsertAll {x : Stock} :
    ∀ (data store : List Stock), x ∈ upsertAll store data → x ∈ store ∨ x ∈ data := by
  intro data
  induction data with
  | nil => exact fun store h => Or.inl h
  | cons d ds ih =>
    intro store h
    rcases ih (upsertOne store d) h with h1 | h1
    · rcases mem_upsertOne h1 with h2 | h2
      · exact Or.inl h2
      · exact Or.inr (h2 ▸ List.mem_cons_self _ _)
    · exact Or.inr (List.mem_cons_of_mem _ h1)

/-- C2: every record the extractor emits has a non-empty symbol composed
only of uppercase letters and digits and a strictly positive close (rows
failing the filter never appear), and the store's upserts introduce no
records beyond the batch handed to them, so every stored record keeps
the extractor's uppercase-normalized symbol. -/
theorem extraction_filter_spec :
    (∀ rows : List (List String), ∀ s ∈ scrapeExtract rows,
      s.symbol ≠ "" ∧ 0 < s.close ∧ ∀ c ∈ s.symbol.data, isUpperAlnum c = true) ∧
    (∀ store data : List Stock, ∀ x ∈ upsertAll store data, x ∈ store ∨ x ∈ data) := by
  constructor
  · intro rows s hs
    obtain ⟨h1, h2, cells, _, hext⟩ := mem_scrapeExtract hs
    refine ⟨h1, h2, ?_⟩
    intro c hc
    rw [extractRow_symbol hext] at hc
    exact cleanSymbol_chars hc
  · intro store data x hx
    exact mem_upsertAll data store hx

/-- C2 witness: the theorem applied to the extracted `ZEN` record of the
synthetic table. -/
theorem extraction_filter_spec_witness :
    zenExtracted.symbol ≠ "" ∧ 0 < zenExtracted.close ∧
      ∀ c ∈ zenExtracted.symbol.data, isUpperAlnum c = true :=
  extraction_filter_spec.1 threeRowTable zenExtracted (by decide)

/-- C9: extracted (hence stored) records have a strictly positive close,
and on every record with a positive close the virtual `changePercent` is
`change / (close − change) * 100`, guarded to `0` exactly when the
denominator `close − change` is `0`; being a virtual, it is a function of
the record, never a stored field. -/
theorem changePercent_spec :
    (∀ rows : List (List String), ∀ s ∈ scrapeExtract rows, 0 < s.close) ∧
    (∀ r : Stock, 0 < r.close →
      changePercent r =
        if r.close - r.change = 0 then 0
        else r.change / (r.close - r.change) * 100) := by
  constructor
  · intro rows s hs
    exact (mem_scrapeExtract hs).2.1
  · intro r hc
    unfold changePercent
    by_cases hch : r.change = 0
    · rw [if_pos (Or.inl hch), hch, sub_zero, if_neg (ne_of_gt hc), zero_div, zero_mul]
    · rw [if_neg (not_or.mpr ⟨hch, ne_of_gt hc⟩)]

/-- C9 witness: the theorem applied to the stored `ZEN` record. -/
theorem changePercent_spec_witness :
    changePercent zen =
      if zen.close - zen.change = 0 then 0
      else zen.change / (zen.close - zen.change) * 100 :=
  changePercent_spec.2 zen (by decide)

/-- Upsert equation: empty collection. -/
theorem upsertOne_nil (info : Stock) : upsertOne [] info = [info] := rfl

/-- Upsert equation: the head matches the record's symbol. -/
theorem upsertOne_cons_pos {r info : Stock} {rs : List Stock} (h : r.symbol = info.symbol) :
    upsertOne (r :: rs) info = info :: rs := by
  simp only [upsertOne]
  rw [if_pos h]

/-- Upsert equation: the head does not match the record's symbol. -/
theorem upsertOne_cons_neg {r info : Stock} {rs : List Stock} (h : ¬r.symbol = info.symbol) :
    upsertOne (r :: rs) info = r :: upsertOne rs info := by
  simp only [upsertOne]
  rw [if_neg h]

/-- Upserting a record whose symbol is absent appends it. -/
theorem upsertOne_of_not_mem {store : List Stock} {info : Stock}
    (h : info.symbol ∉ store.map Stock.symbol) : upsertOne store info = store ++ [info] := by
  induction store with
  | nil => rfl
  | cons r rs ih =>
    simp only [List.map_cons, List.mem_cons, not_or] at h
    rw [upsertOne_cons_neg (fun he => h.1 he.symm), ih h.2, List.cons_append]

/-- In a collection with per-symbol uniqueness, after an upsert the
records carrying the upserted symbol are exactly the new record. -/
theorem filter_symbol_upsertOne {store : List Stock} {info : Stock}
    (hnd : (store.map Stock.symbol).Nodup) :
    (upsertOne store info).filter (fun x => x.symbol == info.symbol) = [info] := by
  induction store with
  | nil =>
    rw [upsertOne_nil]
    simp
  | cons r rs ih =>
    simp only [List.map_cons, List.nodup_cons] at hnd
    obtain ⟨hr, hnd'⟩ := hnd
    by_cases hs : r.symbol = info.symbol
    · rw [upsertOne_cons_pos hs]
      have hnil : rs.filter (fun x => x.symbol == info.symbol) = [] := by
        rw [List.filter_eq_nil_iff]
        intro x hx
        simp only [beq_iff_eq]
        intro hxe
        exact hr (hs ▸ hxe ▸ List.mem_map_of_mem Stock.symbol hx)
      rw [List.filter_cons_of_pos (by simp), hnil]
    · rw [upsertOne_cons_neg hs, List.filter_cons_of_neg (by simp [hs])]
      exact ih hnd'

/-- An upsert whose symbol is already present leaves the symbol multiset
unchanged. -/
theorem map_symbol_upsertOne_mem {store : List Stock} {info : Stock}
    (h : info.symbol ∈ store.map Stock.symbol) :
    (upsertOne store info).map Stock.symbol = store.map Stock.symbol := by
  induction store with
  | nil => cases h
  | cons r rs ih =>
    by_cases hs : r.symbol = info.symbol
    · rw [upsertOne_cons_pos hs]
      simp [hs]
    · rcases List.mem_cons.mp h with h1 | h1
      · exact absurd h1.symm hs
      · rw [upsertOne_cons_neg hs]
        simp only [List.map_cons]
        rw [ih h1]

/-- Upserts preserve per-symbol uniqueness. -/
theorem nodup_symbols_upsertOne {store : List Stock} {info : Stock}
    (hnd : (store.map Stock.symbol).Nodup) :
    ((upsertOne store info).map Stock.symbol).Nodup := by
  by_cases h : info.symbol ∈ store.map Stock.symbol
  · rw [map_symbol_upsertOne_mem h]
    exact hnd
  · rw [upsertOne_of_not_mem h, List.map_append]
    simp [List.nodup_append, hnd, h]

/-- Records with other symbols survive an upsert. -/
theorem mem_upsertOne_of_ne {store : List Stock} {info x : Stock}
    (hx : x ∈ store) (hne : x.symbol ≠ info.symbol) : x ∈ upsertOne store info := by
  induction store with
  | nil => cases hx
  | cons r rs ih =>
    rcases List.mem_cons.mp hx with rfl | h1
    · rw [upsertOne_cons_neg hne]
      exact List.mem_cons_self _ _
    · by_cases hs : r.symbol = info.symbol
      · rw [upsertOne_cons_pos hs]
        exact List.mem_cons_of_mem _ h1
      · rw [upsertOne_cons_neg hs]
        exact List.mem_cons_of_mem _ (ih h1)

/-- Upserting twice under the same symbol is the same as upserting the
second record once. -/
theorem upsertOne_idem {store : List Stock} {r1 r2 : Stock} (h : r1.symbol = r2.symbol) :
    upsertOne (upsertOne store r1) r2 = upsertOne store r2 := by
  induction store with
  | nil => rw [upsertOne_nil, upsertOne_cons_pos h, upsertOne_nil]
  | cons r rs ih =>
    by_cases hs : r.symbol = r1.symbol
    · rw [upsertOne_cons_pos hs, upsertOne_cons_pos h, upsertOne_cons_pos (hs.trans h)]
    · have hs2 : ¬r.symbol = r2.symbol := fun he => hs (he.trans h.symm)
      rw [upsertOne_cons_neg hs, upsertOne_cons_neg hs2, upsertOne_cons_neg hs2, ih]

/-- C1: the upsert keys on the symbol alone — an absent symbol causes an
append (insert, all defaulted fields supplied by the record), a present
symbol causes the unique record with that symbol to become exactly the
incoming record (mutable fields and `scrapedAt` replaced) while records
with other symbols survive; per-symbol uniqueness is preserved; and
applying the same record at two scrape times leaves exactly one record
for that symbol, carrying the later `scrapedAt`. -/
theorem upsert_by_symbol_spec (store : List Stock) (r : Stock) (t1 t2 : Nat)
    (hnd : (store.map Stock.symbol).Nodup) :
    (r.symbol ∉ store.map Stock.symbol → upsertOne store r = store ++ [r]) ∧
    (upsertOne store r).filter (fun x => x.symbol == r.symbol) = [r] ∧
    (∀ x ∈ store, x.symbol ≠ r.symbol → x ∈ upsertOne store r) ∧
    ((upsertOne store r).map Stock.symbol).Nodup ∧
    (upsertOne (upsertOne store { r with scrapedAt := t1 }) { r with scrapedAt := t2 }).filter
        (fun x => x.symbol == r.symbol) = [{ r with scrapedAt := t2 }] := by
  refine ⟨fun h => upsertOne_of_not_mem h, filter_symbol_upsertOne hnd,
    fun x hx hne => mem_upsertOne_of_ne hx hne, nodup_symbols_upsertOne hnd, ?_⟩
  rw [upsertOne_idem (show ({ r with scrapedAt := t1 } : Stock).symbol =
    ({ r with scrapedAt := t2 } : Stock).symbol from rfl)]
  exact @filter_symbol_upsertOne store { r with scrapedAt := t2 } hnd

/-- C1 witness: the theorem applied to a store holding only `GTB` and
the `ZEN` record at times 5 and 9. -/
theorem upsert_by_symbol_spec_witness : upsertOne [gtb] zen = [gtb] ++ [zen] :=
  (upsert_by_symbol_spec [gtb] zen 5 9 (by decide)).1 (by decide)

/-- C3 counterexample: with a store whose `findOneAndUpdate` rejects for
`ZEN`, the batch `[zen, gtb]` stops at the first failure — the result is
the lone raised error, and the remaining record `gtb`, whose own upsert
would have succeeded, is never persisted; no per-record failure
collection is produced. -/
theorem saveToMongoDB_not_isolating :
    saveToMongoDB failZen [] [zen, gtb] = ([], Except.error "db down") ∧
    failZen gtb = none ∧
    gtb ∉ (saveToMongoDB failZen [] [zen, gtb]).1 :=
  ⟨rfl, rfl, by decide⟩

/-- C3 amended: a failure while persisting one record aborts the batch —
every record before the first failing one is upserted, the first error is
raised out of the loop as the overall outcome, and the records after the
failing one are not processed; no per-record failure list is collected. -/
theorem saveToMongoDB_abort_spec (fail : Stock → Option String) (store : List Stock)
    (pre : List Stock) (info : Stock) (rest : List Stock) (e : String)
    (hpre : ∀ x ∈ pre, fail x = none) (hinfo : fail info = some e) :
    saveToMongoDB fail store (pre ++ info :: rest) = (upsertAll store pre, Except.error e) := by
  induction pre generalizing store with
  | nil =>
    simp only [List.nil_append]
    unfold saveToMongoDB
    rw [hinfo]
    rfl
  | cons p ps ih =>
    have hp : fail p = none := hpre p (List.mem_cons_self _ _)
    simp only [List.cons_append]
    unfold saveToMongoDB
    rw [hp, ih (upsertOne store p) (fun x hx => hpre x (List.mem_cons_of_mem _ hx))]
    rfl

/-- C3 amended witness: the theorem applied to the batch
`[gtb, zen, uba]` in which exactly the `ZEN` upsert fails. -/
theorem saveToMongoDB_abort_spec_witness :
    saveToMongoDB failZen [] ([gtb] ++ zen :: [uba]) =
      (upsertAll [] [gtb], Except.error "db down") :=
  saveToMongoDB_abort_spec failZen [] [gtb] zen [uba] "db down" (by decide) (by decide)

instance : IsTotal Stock recentRel :=
  ⟨fun a b => Nat.le_total b.scrapedAt a.scrapedAt⟩

instance : IsTrans Stock recentRel :=
  ⟨fun _ _ _ h1 h2 => Nat.le_trans h2 h1⟩

/-- The aggregation of `getMarketSummary`, with the 200-record window
named. -/
theorem getMarketSummary_cases (store : List Stock) :
    getMarketSummary store =
      if (recentWindow store).isEmpty then []
      else [{ totalStocks := (recentWindow store).length,
              totalVolume := ((recentWindow store).map Stock.dailyVolume).sum,
              totalValue := ((recentWindow store).map Stock.dailyValue).sum,
              avgPrice := ((recentWindow store).map Stock.close).sum /
                ((recentWindow store).length : Rat),
              gainers := (recentWindow store).countP (fun r => decide (0 < r.change)),
              losers := (recentWindow store).countP (fun r => decide (r.change < 0)),
              unchanged := (recentWindow store).countP (fun r => decide (r.change = 0)) }] :=
  rfl

/-- In a pairwise-ordered list every kept element of `take n` relates to
every dropped element of `drop n`. -/
theorem pairwise_take_drop {α : Type} {r : α → α → Prop} {l : List α}
    (h : l.Pairwise r) (n : Nat) :
    ∀ x ∈ l.take n, ∀ y ∈ l.drop n, r x y := by
  rw [← List.take_append_drop n l] at h
  exact (List.pairwise_append.mp h).2.2

/-- C5: the market summary aggregates the 200 most recent records by
scrape time — a window drawn from the store, sorted most-recent-first,
dominating every record it cuts off, without per-symbol deduplication —
classifying each window record by the sign of `change`; an empty store
yields the all-zero summary object rather than a failure, the window
`[+1, −1, 0]` yields one gainer, one loser and one unchanged, and two
records of the same symbol both count. -/
theorem marketSummary_spec :
    summaryRoute ([] : List Stock) = zeroSummary ∧
    (∀ store : List Stock,
      (recentWindow store).length = min store.length 200 ∧
      (∀ x ∈ recentWindow store, x ∈ store) ∧
      List.Sorted recentRel (recentWindow store) ∧
      (∀ x ∈ recentWindow store, ∀ y ∈ (store.insertionSort recentRel).drop 200,
        y.scrapedAt ≤ x.scrapedAt) ∧
      (summaryRoute store).totalStocks = (recentWindow store).length ∧
      (summaryRoute store).gainers = (recentWindow store).countP (fun x => decide (0 < x.change)) ∧
      (summaryRoute store).losers = (recentWindow store).countP (fun x => decide (x.change < 0)) ∧
      (summaryRoute store).unchanged =
        (recentWindow store).countP (fun x => decide (x.change = 0))) ∧
    ((summaryRoute [zen, gtb, uba]).gainers = 1 ∧
      (summaryRoute [zen, gtb, uba]).losers = 1 ∧
      (summaryRoute [zen, gtb, uba]).unchanged = 1) ∧
    (summaryRoute [zen, zenLater]).gainers = 2 := by
  refine ⟨by decide, ?_, by decide, by decide⟩
  intro store
  have hfields : (summaryRoute store).totalStocks = (recentWindow store).length ∧
      (summaryRoute store).gainers =
        (recentWindow store).countP (fun x => decide (0 < x.change)) ∧
      (summaryRoute store).losers =
        (recentWindow store).countP (fun x => decide (x.change < 0)) ∧
      (summaryRoute store).unchanged =
        (recentWindow store).countP (fun x => decide (x.change = 0)) := by
    unfold summaryRoute
    rw [getMarketSummary_cases]
    by_cases hw : (recentWindow store).isEmpty
    · rw [if_pos hw]
      rw [List.isEmpty_iff] at hw
      rw [hw]
      exact ⟨rfl, rfl, rfl, rfl⟩
    · rw [if_neg hw]
      exact ⟨rfl, rfl, rfl, rfl⟩
  refine ⟨?_, ?_, ?_, ?_, hfields.1, hfields.2.1, hfields.2.2.1, hfields.2.2.2⟩
  · unfold recentWindow
    rw [List.length_take, List.length_insertionSort, Nat.min_comm]
  · intro x hx
    exact (List.mem_insertionSort _).mp (List.take_subset _ _ hx)
  · exact List.Pairwise.sublist (List.take_sublist _ _) (List.sorted_insertionSort _ _)
  · intro x hx y hy
    exact pairwise_take_drop (List.sorted_insertionSort _ _) 200 x hx y hy

/-- C5 witness: the theorem's window facts applied to the store `[zen]`
and its member `zen`. -/
theorem marketSummary_spec_witness : zen ∈ ([zen] : List Stock) :=
  (marketSummary_spec.2.1 [zen]).2.1 zen (by decide)

/-- `findOne` on a per-symbol-unique collection returns the member with
the looked-up symbol. -/
theorem findOneBySymbol_of_mem {store : List Stock} {r : Stock}
    (hnd : (store.map Stock.symbol).Nodup) (hr : r ∈ store) :
    findOneBySymbol store r.symbol = some r := by
  induction store with
  | nil => cases hr
  | cons a as ih =>
    simp only [List.map_cons, List.nodup_cons] at hnd
    rcases List.mem_cons.mp hr with rfl | h1
    · unfold findOneBySymbol
      rw [List.find?_cons_of_pos _ (by simp)]
    · have hne : ¬(a.symbol == r.symbol) = true := by
        simp only [beq_iff_eq]
        intro he
        exact hnd.1 (he ▸ List.mem_map_of_mem Stock.symbol h1)
      unfold findOneBySymbol
      have hstep : List.find? (fun x : Stock => x.symbol == r.symbol) (a :: as) =
          List.find? (fun x => x.symbol == r.symbol) as := List.find?_cons_of_neg _ hne
      rw [hstep]
      exact ih hnd.2 h1

/-- `findOne` misses exactly when no record carries the symbol. -/
theorem findOneBySymbol_eq_none {store : List Stock} {sym : String}
    (h : ∀ x ∈ store, x.symbol ≠ sym) : findOneBySymbol store sym = none := by
  unfold findOneBySymbol
  rw [List.find?_eq_none]
  intro x hx
  simp [h x hx]

/-- C10: the `GET /:symbol` handler uppercases the requested symbol
before the lookup, so any case spelling whose uppercase form equals a
stored record's symbol returns that record, and a symbol without a match
after uppercasing produces the 404 result rather than an error or an
empty success. -/
theorem bySymbol_route_spec (store : List Stock) (r : Stock) (q p : String)
    (hnd : (store.map Stock.symbol).Nodup) (hr : r ∈ store)
    (hq : jsUpperString q = r.symbol)
    (hp : ∀ x ∈ store, x.symbol ≠ jsUpperString p) :
    getStockBySymbol store q = Except.ok r ∧
    getStockBySymbol store p = Except.error 404 := by
  constructor
  · unfold getStockBySymbol
    rw [hq, findOneBySymbol_of_mem hnd hr]
  · unfold getStockBySymbol
    rw [findOneBySymbol_eq_none hp]

/-- C10 witness: the theorem applied to the store `[zen, gtb]`, the
mixed-case lookup `"zEn"` and the absent symbol `"uba"`. -/
theorem bySymbol_route_spec_witness :
    getStockBySymbol [zen, gtb] "zEn" = Except.ok zen ∧
    getStockBySymbol [zen, gtb] "uba" = Except.error 404 :=
  bySymbol_route_spec [zen, gtb] zen "zEn" "uba" (by decide) (by decide) (by decide)
    (by decide)

/-- The one-field comparison is total. -/
theorem fieldLE_total (f : String) (a b : Stock) : fieldLE f a b ∨ fieldLE f b a := by
  unfold fieldLE
  split_ifs <;> exact le_total _ _

set_option maxHeartbeats 1600000 in
/-- The one-field comparison is transitive. -/
theorem fieldLE_trans (f : String) {a b c : Stock}
    (h1 : fieldLE f a b) (h2 : fieldLE f b c) : fieldLE f a c := by
  unfold fieldLE at h1 h2 ⊢
  split_ifs at h1 h2 ⊢ <;> exact le_trans h1 h2

instance (q : ListQuery) : IsTotal Stock (sortRel q) := ⟨by
  intro a b
  unfold sortRel
  split_ifs
  · exact fieldLE_total _ b a
  · exact fieldLE_total _ a b⟩

instance (q : ListQuery) : IsTrans Stock (sortRel q) := ⟨by
  intro a b c h1 h2
  unfold sortRel at *
  split_ifs at *
  · exact fieldLE_trans _ h2 h1
  · exact fieldLE_trans _ h1 h2⟩

/-- The comparison on the field named `symbol` is the ascending symbol
order. -/
theorem fieldLE_symbol (a b : Stock) : fieldLE "symbol" a b ↔ symbolAsc a b := by
  unfold fieldLE symbolAsc
  rw [if_neg (by decide), if_neg (by decide), if_neg (by decide), if_neg (by decide),
    if_neg (by decide), if_neg (by decide), if_neg (by decide), if_neg (by decide),
    if_neg (by decide)]

/-- With a sort field outside the allow-list the comparison degrades to
the symbol field, still directed by `sortOrder`. -/
theorem sortRel_fallback {q : ListQuery} (hf : validSortFields.contains q.sortBy = false)
    (a b : Stock) :
    sortRel q a b ↔ (if q.sortOrder = "desc" then symbolAsc b a else symbolAsc a b) := by
  have hs : sortField q = "symbol" := by
    unfold sortField
    rw [hf]
    rfl
  unfold sortRel
  rw [hs]
  by_cases hd : q.sortOrder = "desc"
  · rw [if_pos hd, if_pos hd]
    exact fieldLE_symbol b a
  · rw [if_neg hd, if_neg hd]
    exact fieldLE_symbol a b

/-- C6 counterexample: `sortBy = "bogus"` is outside the allow-list, yet
with `sortOrder = "desc"` the listing comes back sorted by symbol
descending (`["ZEN", "GTB"]`), not ascending — the claimed fallback to
symbol ascending is false as stated. -/
theorem listFiltered_fallback_counterexample :
    validSortFields.contains qBogusDesc.sortBy = false ∧
    (listFiltered qBogusDesc [gtb, zen]).1.map Stock.symbol = ["ZEN", "GTB"] ∧
    ¬ List.Sorted symbolAsc (listFiltered qBogusDesc [gtb, zen]).1 :=
  ⟨by decide, by decide, by decide⟩

/-- C6 amended: an unknown sort field falls back to the `symbol` field
with the direction still taken from `sortOrder` (ascending unless it is
`'desc'`); pagination drops `(page−1)·limit` records of the sorted
filtered list and keeps at most `limit`; and the reported total is the
full filtered count, unaffected by `page` and `limit`. -/
theorem listFiltered_spec (q : ListQuery) (store : List Stock) :
    (listFiltered q store).2 = (store.filter (matchesQuery q)).length ∧
    (∀ p l : Nat,
      (listFiltered { q with page := p, limit := l } store).2 = (listFiltered q store).2) ∧
    (listFiltered q store).1 =
      (((store.filter (matchesQuery q)).insertionSort (sortRel q)).drop
        ((q.page - 1) * q.limit)).take q.limit ∧
    (listFiltered q store).1.length ≤ q.limit ∧
    (validSortFields.contains q.sortBy = false → q.sortOrder ≠ "desc" →
      List.Sorted symbolAsc (listFiltered q store).1) ∧
    (validSortFields.contains q.sortBy = false → q.sortOrder = "desc" →
      List.Sorted (fun a b => symbolAsc b a) (listFiltered q store).1) := by
  have hsorted : List.Sorted (sortRel q) (listFiltered q store).1 :=
    List.Pairwise.sublist ((List.take_sublist _ _).trans (List.drop_sublist _ _))
      (List.sorted_insertionSort _ _)
  refine ⟨rfl, fun p l => rfl, rfl, List.length_take_le _ _, ?_, ?_⟩
  · intro hf hdir
    refine hsorted.imp ?_
    intro a b h
    have h2 := (sortRel_fallback hf a b).mp h
    rwa [if_neg hdir] at h2
  · intro hf hdir
    refine hsorted.imp ?_
    intro a b h
    have h2 := (sortRel_fallback hf a b).mp h
    rwa [if_pos hdir] at h2

/-- C6 amended witness: the theorem applied to the bogus-field descending
query over `[gtb, zen]`, instantiating the descending-fallback clause. -/
theorem listFiltered_spec_witness :
    List.Sorted (fun a b => symbolAsc b a) (listFiltered qBogusDesc [gtb, zen]).1 :=
  (listFiltered_spec qBogusDesc [gtb, zen]).2.2.2.2.2 (by decide) (by decide)

/-- Equal character data means equal strings. -/
theorem string_eq_of_data_eq {a b : String} (h : a.data = b.data) : a = b := by
  cases a
  cases b
  cases h
  rfl

instance : IsTotal Stock latestRel := ⟨by
  intro a b
  unfold latestRel
  rcases lt_trichotomy a.symbol.data b.symbol.data with h | h | h
  · exact Or.inl (Or.inl h)
  · have hs : a.symbol = b.symbol := string_eq_of_data_eq h
    rcases Nat.le_total b.scrapedAt a.scrapedAt with hn | hn
    · exact Or.inl (Or.inr ⟨hs, hn⟩)
    · exact Or.inr (Or.inr ⟨hs.symm, hn⟩)
  · exact Or.inr (Or.inl h)⟩

instance : IsTrans Stock latestRel := ⟨by
  intro a b c h1 h2
  unfold latestRel at h1 h2 ⊢
  rcases h1 with h1 | ⟨h1e, h1n⟩
  · rcases h2 with h2 | ⟨h2e, _⟩
    · exact Or.inl (h1.trans h2)
    · exact Or.inl (lt_of_lt_of_eq h1 (congrArg String.data h2e))
  · rcases h2 with h2 | ⟨h2e, h2n⟩
    · exact Or.inl (lt_of_eq_of_lt (congrArg String.data h1e) h2)
    · exact Or.inr ⟨h1e.trans h2e, h2n.trans h1n⟩⟩

instance : IsTotal Stock symbolAsc := ⟨fun a b => le_total a.symbol.data b.symbol.data⟩

instance : IsTrans Stock symbolAsc := ⟨fun _ _ _ h1 h2 => le_trans h1 h2⟩

/-- `$group` keeps only documents of the incoming list. -/
theorem mem_dedupBySymbol {L : List Stock} {r : Stock} (h : r ∈ dedupBySymbol L) :
    r ∈ L := by
  induction L with
  | nil => cases h
  | cons a as ih =>
    simp only [dedupBySymbol] at h
    rcases List.mem_cons.mp h with rfl | h1
    · exact List.mem_cons_self _ _
    · exact List.mem_cons_of_mem _ (ih (List.mem_of_mem_filter h1))

/-- `$group` by symbol leaves pairwise-distinct symbols. -/
theorem nodup_symbols_dedup (L : List Stock) :
    ((dedupBySymbol L).map Stock.symbol).Nodup := by
  induction L with
  | nil => simp [dedupBySymbol]
  | cons a as ih =>
    simp only [dedupBySymbol, List.map_cons, List.nodup_cons]
    constructor
    · intro hmem
      rw [List.mem_map] at hmem
      obtain ⟨x, hx, hxe⟩ := hmem
      have hne := List.of_mem_filter hx
      rw [bne_iff_ne] at hne
      exact hne hxe
    · exact List.Nodup.sublist ((List.filter_sublist _).map Stock.symbol) ih

/-- In a pairwise-ordered list, the group representative kept by
`$first` relates to every other document of its symbol group. -/
theorem dedup_first_of_pairwise {P : Stock → Stock → Prop} :
    ∀ {L : List Stock}, L.Pairwise P → ∀ r ∈ dedupBySymbol L, ∀ x ∈ L,
      x.symbol = r.symbol → x = r ∨ P r x := by
  intro L
  induction L with
  | nil =>
    intro _ r hr
    cases hr
  | cons a as ih =>
    intro h r hr x hx hsym
    rw [List.pairwise_cons] at h
    simp only [dedupBySymbol] at hr
    rcases List.mem_cons.mp hr with rfl | hr1
    · rcases List.mem_cons.mp hx with rfl | hx1
      · exact Or.inl rfl
      · exact Or.inr (h.1 x hx1)
    · have hrd : r ∈ dedupBySymbol as := List.mem_of_mem_filter hr1
      have hrne := List.of_mem_filter hr1
      rw [bne_iff_ne] at hrne
      rcases List.mem_cons.mp hx with rfl | hx1
      · exact absurd hsym.symm hrne
      · exact ih h.2 r hrd x hx1 hsym

/-- C4: `findLatest` returns at most one record per distinct symbol, each
a record of the store whose `scrapedAt` is maximal among the store's
records of that symbol, at most `limit` of them, sorted by symbol
ascending. -/
theorem findLatest_spec (limit : Nat) (store : List Stock) :
    ((findLatest limit store).map Stock.symbol).Nodup ∧
    (findLatest limit store).length ≤ limit ∧
    List.Sorted symbolAsc (findLatest limit store) ∧
    ∀ r ∈ findLatest limit store, r ∈ store ∧
      ∀ x ∈ store, x.symbol = r.symbol → x.scrapedAt ≤ r.scrapedAt := by
  refine ⟨?_, ?_, ?_, ?_⟩
  · have hperm : List.Perm (findLatest limit store)
        ((dedupBySymbol (store.insertionSort latestRel)).take limit) :=
      List.perm_insertionSort _ _
    refine (hperm.map Stock.symbol).nodup_iff.mpr ?_
    exact List.Nodup.sublist ((List.take_sublist _ _).map Stock.symbol)
      (nodup_symbols_dedup _)
  · unfold findLatest
    rw [List.length_insertionSort]
    exact List.length_take_le _ _
  · exact List.sorted_insertionSort _ _
  · intro r hr
    have hrtk : r ∈ (dedupBySymbol (store.insertionSort latestRel)).take limit :=
      (List.mem_insertionSort _).mp hr
    have hrded : r ∈ dedupBySymbol (store.insertionSort latestRel) :=
      List.take_subset _ _ hrtk
    have hrstore : r ∈ store :=
      (List.mem_insertionSort _).mp (mem_dedupBySymbol hrded)
    refine ⟨hrstore, ?_⟩
    intro x hx hsym
    have hxs : x ∈ store.insertionSort latestRel := (List.mem_insertionSort _).mpr hx
    have hp : (store.insertionSort latestRel).Pairwise latestRel :=
      List.sorted_insertionSort _ _
    rcases dedup_first_of_pairwise hp r hrded x hxs hsym with rfl | hrel
    · exact le_refl _
    · rcases hrel with h | ⟨_, h⟩
      · rw [hsym] at h
        exact absurd h (lt_irrefl _)
      · exact h

/-- C4 witness: the theorem applied to a three-record store in which
`GTB` is returned and `ZEN` appears twice. -/
theorem findLatest_spec_witness :
    gtb ∈ ([zen, gtb, zenLater] : List Stock) ∧
    ∀ x ∈ ([zen, gtb, zenLater] : List Stock), x.symbol = gtb.symbol →
      x.scrapedAt ≤ gtb.scrapedAt :=
  (findLatest_spec 10 [zen, gtb, zenLater]).2.2.2 gtb (by decide)

end StocksScraper
